import Mathlib

/-!
Shallow embedding of the Intcode virtual machine of this repository
(src/vm.rs, and the day-7 variant in src/bin/d07b.rs).

Conventions of the embedding:
* Rust i64 values are Lean `Int`s; arithmetic that Rust performs on i64
  (`+`, `*` on cell values, `relative_base += v`) is overflow-checked, as in
  a debug build, and surfaces as `Err.arithOverflow`.
* The cast `v as usize` on an i64 is the wrapping two's-complement
  reinterpretation, `(v % 2^64).toNat`.
* `usize` arithmetic (`mem_size * 2` in `ensure_mem_availability`) is
  likewise overflow-checked (debug semantics).
* Rust panics (slice index out of bounds, `unwrap` on `None`,
  unreachable `match` arms) are modelled as `Except` errors, so every
  operation returns `Except Err _`.
* Loops receive an explicit fuel; exhausting it gives `Err.outOfFuel`, so
  an `Except.ok` result means the Rust loop genuinely finished.
* `Err.negativeAddress` exists only because the specification names such an
  error; no code path of the source constructs it.
-/

set_option maxRecDepth 40000

inductive Err where
  | unknownOpcode
  | unknownMode
  | badModeIndex
  | invalidWriteTarget
  | inputExhausted
  | emptyOutputLog
  | negativeAddress
  | indexOutOfBounds
  | arithOverflow
  | outOfFuel
deriving DecidableEq

deriving instance DecidableEq for Except

/-- Binding an error short-circuits. -/
lemma error_bind {α β : Type} (e : Err) (f : α → Except Err β) :
    (Except.error e >>= f) = Except.error e := rfl

/-- Binding a success applies the continuation. -/
lemma ok_bind {α β : Type} (a : α) (f : α → Except Err β) :
    (Except.ok a >>= f) = f a := rfl

/-- Size of the usize value space on a 64-bit target. -/
def usizeSize : Nat := 2 ^ 64

/-- Smallest i64 value. -/
def i64Min : Int := -(2 ^ 63)

/-- Largest i64 value. -/
def i64Max : Int := 2 ^ 63 - 1

/-- The Rust cast of an i64 to usize: wrapping two's-complement reinterpretation. -/
def intToUsize (v : Int) : Nat := (v % (2 ^ 64 : Int)).toNat

/-- Debug-checked i64 addition: panics (errors) on overflow. -/
def checkedAdd (a b : Int) : Except Err Int :=
  if a + b < i64Min ∨ i64Max < a + b then .error .arithOverflow else .ok (a + b)

/-- Debug-checked i64 multiplication: panics (errors) on overflow. -/
def checkedMul (a b : Int) : Except Err Int :=
  if a * b < i64Min ∨ i64Max < a * b then .error .arithOverflow else .ok (a * b)

/-- Debug-checked usize computation of the expression mem_size * 2. -/
def usizeDouble (n : Nat) : Except Err Nat :=
  if n * 2 < usizeSize then .ok (n * 2) else .error .arithOverflow

/-- Rust slice indexing bytecode i on a Vec modelled as a list: panic when out of bounds. -/
def memGet (mem : List Int) (i : Nat) : Except Err Int :=
  match mem.get? i with
  | some v => .ok v
  | none => .error .indexOutOfBounds

/-- Rust slice index assignment: panic when out of bounds. -/
def memSet (mem : List Int) (i : Nat) (v : Int) : Except Err (List Int) :=
  if i < mem.length then .ok (mem.set i v) else .error .indexOutOfBounds

/-- Vec resize with fill value v: truncates when shrinking, appends copies of v when growing. -/
def listResize (l : List Int) (n : Nat) (v : Int) : List Int :=
  if n ≤ l.length then l.take n else l ++ List.replicate (n - l.length) v

namespace Intcode

inductive Mode where
  | Position
  | Immediate
  | Relative
deriving DecidableEq

/-- Mode from an i64 digit (impl From for Mode in src/vm.rs): 0, 1, 2 are the
only known addressing modes, anything else panics. -/
def Mode.ofInt (v : Int) : Except Err Mode :=
  match v with
  | 0 => .ok .Position
  | 1 => .ok .Immediate
  | 2 => .ok .Relative
  | _ => .error .unknownMode

/-- Mode digit extraction (Mode::parse in src/vm.rs); Rust % and / on i64 are
truncating, hence Int.tmod and Int.tdiv. -/
def Mode.parse (m : Int) (index : Nat) : Except Err Mode :=
  match index with
  | 0 => Mode.ofInt ((m.tmod 1000).tdiv 100)
  | 1 => Mode.ofInt ((m.tmod 10000).tdiv 1000)
  | 2 => Mode.ofInt ((m.tmod 100000).tdiv 10000)
  | _ => .error .badModeIndex

inductive Opcode where
  | Add
  | Multiply
  | Input
  | Output
  | JumpIfTrue
  | JumpIfFalse
  | LessThan
  | Equals
  | AdjustRelativeBase
  | Halt
deriving DecidableEq

/-- Opcode from an i64 (impl From for Opcode in src/vm.rs): matches on v % 100
with truncating remainder, panics on an unknown opcode. -/
def Opcode.ofInt (v : Int) : Except Err Opcode :=
  match v.tmod 100 with
  | 1 => .ok .Add
  | 2 => .ok .Multiply
  | 3 => .ok .Input
  | 4 => .ok .Output
  | 5 => .ok .JumpIfTrue
  | 6 => .ok .JumpIfFalse
  | 7 => .ok .LessThan
  | 8 => .ok .Equals
  | 9 => .ok .AdjustRelativeBase
  | 99 => .ok .Halt
  | _ => .error .unknownOpcode

structure Operand where
  value : Int
  mode : Mode
deriving DecidableEq

structure Instruction where
  opcode : Int
  operands : List Operand
deriving DecidableEq

/-- Rust indexing inst.operands i (a Vec): panic when out of bounds. -/
def getOperand (inst : Instruction) (i : Nat) : Except Err Operand :=
  match inst.operands.get? i with
  | some op => .ok op
  | none => .error .indexOutOfBounds

/-- The VM state of src/vm.rs. The LinkedList of inputs is a FIFO consumed
from the front; outputs is an append-only log. -/
structure VM where
  bytecode : List Int
  pc : Nat
  inputs : List Int
  outputs : List Int
  done : Bool
  relative_base : Int
deriving DecidableEq

def VM.new (bytecode : List Int) : VM :=
  { bytecode := bytecode, pc := 0, inputs := [], outputs := [],
    done := false, relative_base := 0 }

/-- VM::set_inputs: pushes every value to the back of the input queue. -/
def VM.set_inputs (vm : VM) (v : List Int) : VM :=
  { vm with inputs := vm.inputs ++ v }

/-- VM::get_last_output: unwrap of outputs.last (panic when the log is empty). -/
def VM.get_last_output (vm : VM) : Except Err Int :=
  match vm.outputs.getLast? with
  | some v => .ok v
  | none => .error .emptyOutputLog

/-- VM::ensure_mem_availability: grows (by doubling mem_size) only when
mem_size strictly exceeds the current length. -/
def ensure_mem_availability (mem : List Int) (mem_size : Nat) :
    Except Err (List Int) :=
  if mem_size > mem.length then do
    let n ← usizeDouble mem_size
    .ok (listResize mem n 0)
  else .ok mem

/-- VM::set_mem. -/
def set_mem (vm : VM) (address : Nat) (v : Int) : Except Err VM := do
  let mem ← ensure_mem_availability vm.bytecode address
  let mem2 ← memSet mem address v
  .ok { vm with bytecode := mem2 }

/-- VM::get_value; takes the VM by mutable reference since Position and
Relative reads may grow memory. -/
def get_value (vm : VM) (op : Operand) : Except Err (VM × Int) :=
  match op.mode with
  | .Immediate => .ok (vm, op.value)
  | .Position => do
      let address := intToUsize op.value
      let mem ← ensure_mem_availability vm.bytecode address
      let v ← memGet mem address
      .ok ({ vm with bytecode := mem }, v)
  | .Relative => do
      let address ← checkedAdd op.value vm.relative_base
      let mem ← ensure_mem_availability vm.bytecode (intToUsize address)
      let v ← memGet mem (intToUsize address)
      .ok ({ vm with bytecode := mem }, v)

/-- VM::get_absolute_address: the write-destination resolver; panics
(InvalidWriteTarget) on an Immediate operand. -/
def get_absolute_address (vm : VM) (op : Operand) : Except Err Nat :=
  match op.mode with
  | .Position => .ok (intToUsize op.value)
  | .Relative => do
      let a ← checkedAdd op.value vm.relative_base
      .ok (intToUsize a)
  | .Immediate => .error .invalidWriteTarget

/-- The address computation of the Input branch of run_till_output: the raw
operand value, offset by the relative base only when the mode is Relative
(any other mode, Immediate included, is treated like Position). -/
def inputAddress (op : Operand) (rb : Int) : Except Err Int :=
  if op.mode = .Relative then checkedAdd op.value rb else .ok op.value

/-- One operand of VM::get_next_instruction: the raw value is read from
memory (panics if out of bounds) before the mode digit is parsed. -/
def fetchOperand (vm : VM) (mode : Int) (k i : Nat) : Except Err Operand := do
  let v ← memGet vm.bytecode (vm.pc + k)
  let m ← Mode.parse mode i
  .ok { value := v, mode := m }

/-- VM::get_next_instruction. mode is code with its low two digits cleared;
the stored opcode is code % 100. Only as many operand slots are fetched (and
only their mode digits parsed) as the opcode requires. -/
def get_next_instruction (vm : VM) : Except Err Instruction := do
  let code ← memGet vm.bytecode vm.pc
  let mode := code - code.tmod 100
  let opcode := code.tmod 100
  let opc ← Opcode.ofInt code
  match opc with
  | .Add => do
      let o0 ← fetchOperand vm mode 1 0
      let o1 ← fetchOperand vm mode 2 1
      let o2 ← fetchOperand vm mode 3 2
      .ok { opcode := opcode, operands := [o0, o1, o2] }
  | .Multiply => do
      let o0 ← fetchOperand vm mode 1 0
      let o1 ← fetchOperand vm mode 2 1
      let o2 ← fetchOperand vm mode 3 2
      .ok { opcode := opcode, operands := [o0, o1, o2] }
  | .Input => do
      let o0 ← fetchOperand vm mode 1 0
      .ok { opcode := opcode, operands := [o0] }
  | .Output => do
      let o0 ← fetchOperand vm mode 1 0
      .ok { opcode := opcode, operands := [o0] }
  | .JumpIfTrue => do
      let o0 ← fetchOperand vm mode 1 0
      let o1 ← fetchOperand vm mode 2 1
      .ok { opcode := opcode, operands := [o0, o1] }
  | .JumpIfFalse => do
      let o0 ← fetchOperand vm mode 1 0
      let o1 ← fetchOperand vm mode 2 1
      .ok { opcode := opcode, operands := [o0, o1] }
  | .LessThan => do
      let o0 ← fetchOperand vm mode 1 0
      let o1 ← fetchOperand vm mode 2 1
      let o2 ← fetchOperand vm mode 3 2
      .ok { opcode := opcode, operands := [o0, o1, o2] }
  | .Equals => do
      let o0 ← fetchOperand vm mode 1 0
      let o1 ← fetchOperand vm mode 2 1
      let o2 ← fetchOperand vm mode 3 2
      .ok { opcode := opcode, operands := [o0, o1, o2] }
  | .AdjustRelativeBase => do
      let o0 ← fetchOperand vm mode 1 0
      .ok { opcode := opcode, operands := [o0] }
  | .Halt => .ok { opcode := opcode, operands := [] }

/-- Result of one iteration of the run_till_output loop: continue looping, or
break out of the loop with the given state. -/
inductive StepRes where
  | cont (vm : VM)
  | brk (vm : VM)
deriving DecidableEq

/-- One iteration of the loop body of VM::run_till_output: fetch, decode the
opcode again from the stored instruction, dispatch. -/
def step (vm : VM) : Except Err StepRes := do
  let inst ← get_next_instruction vm
  let opc ← Opcode.ofInt inst.opcode
  match opc with
  | .Halt =>
      .ok (.brk { vm with pc := vm.pc + 1, done := true })
  | .AdjustRelativeBase => do
      let op0 ← getOperand inst 0
      let (vm1, value) ← get_value vm op0
      let rb ← checkedAdd vm1.relative_base value
      .ok (.cont { vm1 with relative_base := rb, pc := vm1.pc + 2 })
  | .Add => do
      let op0 ← getOperand inst 0
      let op1 ← getOperand inst 1
      let op2 ← getOperand inst 2
      let (vm1, v1) ← get_value vm op0
      let (vm2, v2) ← get_value vm1 op1
      let dest ← get_absolute_address vm2 op2
      let s ← checkedAdd v1 v2
      let vm3 ← set_mem vm2 dest s
      .ok (.cont { vm3 with pc := vm3.pc + 4 })
  | .Multiply => do
      let op0 ← getOperand inst 0
      let op1 ← getOperand inst 1
      let op2 ← getOperand inst 2
      let (vm1, v1) ← get_value vm op0
      let (vm2, v2) ← get_value vm1 op1
      let dest ← get_absolute_address vm2 op2
      let s ← checkedMul v1 v2
      let vm3 ← set_mem vm2 dest s
      .ok (.cont { vm3 with pc := vm3.pc + 4 })
  | .Input =>
      match vm.inputs with
      | [] => .error .inputExhausted
      | inp :: rest => do
          let op0 ← getOperand inst 0
          let address ← inputAddress op0 vm.relative_base
          let vm1 ← set_mem { vm with inputs := rest } (intToUsize address) inp
          .ok (.cont { vm1 with pc := vm1.pc + 2 })
  | .Output => do
      let op0 ← getOperand inst 0
      let (vm1, value) ← get_value vm op0
      .ok (.brk { vm1 with outputs := vm1.outputs ++ [value], pc := vm1.pc + 2 })
  | .JumpIfTrue => do
      let op0 ← getOperand inst 0
      let p ← get_value vm op0
      if p.2 ≠ 0 then do
        let op1 ← getOperand inst 1
        let q ← get_value p.1 op1
        .ok (.cont { q.1 with pc := intToUsize q.2 })
      else
        .ok (.cont { p.1 with pc := p.1.pc + 3 })
  | .JumpIfFalse => do
      let op0 ← getOperand inst 0
      let p ← get_value vm op0
      if p.2 = 0 then do
        let op1 ← getOperand inst 1
        let q ← get_value p.1 op1
        .ok (.cont { q.1 with pc := intToUsize q.2 })
      else
        .ok (.cont { p.1 with pc := p.1.pc + 3 })
  | .LessThan => do
      let op0 ← getOperand inst 0
      let op1 ← getOperand inst 1
      let op2 ← getOperand inst 2
      let (vm1, v1) ← get_value vm op0
      let (vm2, v2) ← get_value vm1 op1
      let address ← get_absolute_address vm2 op2
      let vm3 ← set_mem vm2 address (if v1 < v2 then 1 else 0)
      .ok (.cont { vm3 with pc := vm3.pc + 4 })
  | .Equals => do
      let op0 ← getOperand inst 0
      let op1 ← getOperand inst 1
      let op2 ← getOperand inst 2
      let (vm1, v1) ← get_value vm op0
      let (vm2, v2) ← get_value vm1 op1
      let address ← get_absolute_address vm2 op2
      let vm3 ← set_mem vm2 address (if v1 = v2 then 1 else 0)
      .ok (.cont { vm3 with pc := vm3.pc + 4 })

/-- The loop of VM::run_till_output, with explicit fuel. -/
def loopRun : Nat → VM → Except Err VM
  | 0, _ => .error .outOfFuel
  | n + 1, vm => do
      match ← step vm with
      | .brk vm2 => .ok vm2
      | .cont vm2 => loopRun n vm2

/-- VM::run_till_output: immediate return when already done, else the loop. -/
def run_till_output (fuel : Nat) (vm : VM) : Except Err VM :=
  if vm.done then .ok vm else loopRun fuel vm

/-- VM::run: while not done, run_till_output. -/
def run : Nat → VM → Except Err VM
  | 0, vm => if vm.done then .ok vm else .error .outOfFuel
  | n + 1, vm =>
      if vm.done then .ok vm
      else do
        let vm2 ← run_till_output (n + 1) vm
        run n vm2

/-- A whole execution: fresh VM from the program, queue the inputs, run. -/
def runProgram (prog inputs : List Int) (fuel : Nat) : Except Err VM :=
  run fuel ((VM.new prog).set_inputs inputs)

end Intcode

namespace D07b
/-!
The day-7 variant of the VM (src/bin/d07b.rs): two addressing modes only
(Position, Immediate), no relative base, no memory growth (plain indexing,
out of bounds panics), and write destinations use the raw operand value as a
position without consulting its mode. Its run() breaks after each Output.
-/

inductive Mode where
  | Position
  | Immediate
deriving DecidableEq

/-- Mode from an i64 digit (d07b): only 0 and 1 are known. -/
def Mode.ofInt (v : Int) : Except Err Mode :=
  match v with
  | 0 => .ok .Position
  | 1 => .ok .Immediate
  | _ => .error .unknownMode

/-- Mode digit extraction (Mode::parse in d07b.rs). -/
def Mode.parse (m : Int) (index : Nat) : Except Err Mode :=
  match index with
  | 0 => Mode.ofInt ((m.tmod 1000).tdiv 100)
  | 1 => Mode.ofInt ((m.tmod 10000).tdiv 1000)
  | 2 => Mode.ofInt ((m.tmod 100000).tdiv 10000)
  | _ => .error .badModeIndex

inductive Opcode where
  | Add
  | Multiply
  | Input
  | Output
  | JumpIfTrue
  | JumpIfFalse
  | LessThan
  | Equals
  | Halt
deriving DecidableEq

/-- Opcode from an i64 (d07b): no AdjustRelativeBase. -/
def Opcode.ofInt (v : Int) : Except Err Opcode :=
  match v.tmod 100 with
  | 1 => .ok .Add
  | 2 => .ok .Multiply
  | 3 => .ok .Input
  | 4 => .ok .Output
  | 5 => .ok .JumpIfTrue
  | 6 => .ok .JumpIfFalse
  | 7 => .ok .LessThan
  | 8 => .ok .Equals
  | 99 => .ok .Halt
  | _ => .error .unknownOpcode

structure Operand where
  value : Int
  mode : Mode
deriving DecidableEq

structure Instruction where
  opcode : Int
  operands : List Operand
deriving DecidableEq

def getOperand (inst : Instruction) (i : Nat) : Except Err Operand :=
  match inst.operands.get? i with
  | some op => .ok op
  | none => .error .indexOutOfBounds

structure VM where
  bytecode : List Int
  pc : Nat
  inputs : List Int
  outputs : List Int
  done : Bool
deriving DecidableEq

def VM.new (bytecode : List Int) : VM :=
  { bytecode := bytecode, pc := 0, inputs := [], outputs := [], done := false }

def VM.set_inputs (vm : VM) (v : List Int) : VM :=
  { vm with inputs := vm.inputs ++ v }

def VM.get_last_output (vm : VM) : Except Err Int :=
  match vm.outputs.getLast? with
  | some v => .ok v
  | none => .error .emptyOutputLog

/-- get_value in d07b: Immediate gives the raw value, anything else indexes
the bytecode directly (panic when out of bounds; no growth). -/
def get_value (vm : VM) (op : Operand) : Except Err Int :=
  if op.mode = .Immediate then .ok op.value
  else memGet vm.bytecode (intToUsize op.value)

/-- A direct write bytecode at value as usize = v, as d07b does for all
write destinations (the destination operand's mode is never consulted). -/
def writeRaw (vm : VM) (value : Int) (v : Int) : Except Err VM := do
  let mem ← memSet vm.bytecode (intToUsize value) v
  .ok { vm with bytecode := mem }

def fetchOperand (vm : VM) (mode : Int) (k i : Nat) : Except Err Operand := do
  let v ← memGet vm.bytecode (vm.pc + k)
  let m ← Mode.parse mode i
  .ok { value := v, mode := m }

/-- get_next_instruction in d07b.rs. -/
def get_next_instruction (vm : VM) : Except Err Instruction := do
  let code ← memGet vm.bytecode vm.pc
  let mode := code - code.tmod 100
  let opcode := code.tmod 100
  let opc ← Opcode.ofInt code
  match opc with
  | .Add => do
      let o0 ← fetchOperand vm mode 1 0
      let o1 ← fetchOperand vm mode 2 1
      let o2 ← fetchOperand vm mode 3 2
      .ok { opcode := opcode, operands := [o0, o1, o2] }
  | .Multiply => do
      let o0 ← fetchOperand vm mode 1 0
      let o1 ← fetchOperand vm mode 2 1
      let o2 ← fetchOperand vm mode 3 2
      .ok { opcode := opcode, operands := [o0, o1, o2] }
  | .Input => do
      let o0 ← fetchOperand vm mode 1 0
      .ok { opcode := opcode, operands := [o0] }
  | .Output => do
      let o0 ← fetchOperand vm mode 1 0
      .ok { opcode := opcode, operands := [o0] }
  | .JumpIfTrue => do
      let o0 ← fetchOperand vm mode 1 0
      let o1 ← fetchOperand vm mode 2 1
      .ok { opcode := opcode, operands := [o0, o1] }
  | .JumpIfFalse => do
      let o0 ← fetchOperand vm mode 1 0
      let o1 ← fetchOperand vm mode 2 1
      .ok { opcode := opcode, operands := [o0, o1] }
  | .LessThan => do
      let o0 ← fetchOperand vm mode 1 0
      let o1 ← fetchOperand vm mode 2 1
      let o2 ← fetchOperand vm mode 3 2
      .ok { opcode := opcode, operands := [o0, o1, o2] }
  | .Equals => do
      let o0 ← fetchOperand vm mode 1 0
      let o1 ← fetchOperand vm mode 2 1
      let o2 ← fetchOperand vm mode 3 2
      .ok { opcode := opcode, operands := [o0, o1, o2] }
  | .Halt => .ok { opcode := opcode, operands := [] }

inductive StepRes where
  | cont (vm : VM)
  | brk (vm : VM)
deriving DecidableEq

/-- One iteration of the loop body of d07b's VM::run. -/
def step (vm : VM) : Except Err StepRes := do
  let inst ← get_next_instruction vm
  let opc ← Opcode.ofInt inst.opcode
  match opc with
  | .Halt =>
      .ok (.brk { vm with pc := vm.pc + 1, done := true })
  | .Add => do
      let op0 ← getOperand inst 0
      let op1 ← getOperand inst 1
      let op2 ← getOperand inst 2
      let v1 ← get_value vm op0
      let v2 ← get_value vm op1
      let s ← checkedAdd v1 v2
      let vm1 ← writeRaw vm op2.value s
      .ok (.cont { vm1 with pc := vm1.pc + 4 })
  | .Multiply => do
      let op0 ← getOperand inst 0
      let op1 ← getOperand inst 1
      let op2 ← getOperand inst 2
      let v1 ← get_value vm op0
      let v2 ← get_value vm op1
      let s ← checkedMul v1 v2
      let vm1 ← writeRaw vm op2.value s
      .ok (.cont { vm1 with pc := vm1.pc + 4 })
  | .Input =>
      match vm.inputs with
      | [] => .error .inputExhausted
      | inp :: rest => do
          let op0 ← getOperand inst 0
          let vm1 ← writeRaw { vm with inputs := rest } op0.value inp
          .ok (.cont { vm1 with pc := vm1.pc + 2 })
  | .Output => do
      let op0 ← getOperand inst 0
      let value ← get_value vm op0
      .ok (.brk { vm with outputs := vm.outputs ++ [value], pc := vm.pc + 2 })
  | .JumpIfTrue => do
      let op0 ← getOperand inst 0
      let t ← get_value vm op0
      if t ≠ 0 then do
        let op1 ← getOperand inst 1
        let tgt ← get_value vm op1
        .ok (.cont { vm with pc := intToUsize tgt })
      else
        .ok (.cont { vm with pc := vm.pc + 3 })
  | .JumpIfFalse => do
      let op0 ← getOperand inst 0
      let t ← get_value vm op0
      if t = 0 then do
        let op1 ← getOperand inst 1
        let tgt ← get_value vm op1
        .ok (.cont { vm with pc := intToUsize tgt })
      else
        .ok (.cont { vm with pc := vm.pc + 3 })
  | .LessThan => do
      let op0 ← getOperand inst 0
      let op1 ← getOperand inst 1
      let op2 ← getOperand inst 2
      let v1 ← get_value vm op0
      let v2 ← get_value vm op1
      let vm1 ← writeRaw vm op2.value (if v1 < v2 then 1 else 0)
      .ok (.cont { vm1 with pc := vm1.pc + 4 })
  | .Equals => do
      let op0 ← getOperand inst 0
      let op1 ← getOperand inst 1
      let op2 ← getOperand inst 2
      let v1 ← get_value vm op0
      let v2 ← get_value vm op1
      let vm1 ← writeRaw vm op2.value (if v1 = v2 then 1 else 0)
      .ok (.cont { vm1 with pc := vm1.pc + 4 })

def loopRun : Nat → VM → Except Err VM
  | 0, _ => .error .outOfFuel
  | n + 1, vm => do
      match ← step vm with
      | .brk vm2 => .ok vm2
      | .cont vm2 => loopRun n vm2

/-- d07b's VM::run: immediate return when already done, else loop until the
next Output (break) or Halt. -/
def run (fuel : Nat) (vm : VM) : Except Err VM :=
  if vm.done then .ok vm else loopRun fuel vm

/-- Access vms i on the Vec of amplifier VMs (panic when out of bounds). -/
def getVM (vms : List VM) (i : Nat) : Except Err VM :=
  match vms.get? i with
  | some vm => .ok vm
  | none => .error .indexOutOfBounds

/-- The while loop of calculate_feedback_loop_thruster_output: until the last
VM halts, feed the signal into the current VM, run it to its next output,
take its last output as the new signal, advance round-robin. -/
def feedbackLoop : Nat → List VM → Nat → Int → Except Err Int
  | 0, _, _, _ => .error .outOfFuel
  | n + 1, vms, index, signal => do
      let vm4 ← getVM vms 4
      if vm4.done then .ok signal
      else do
        let vm ← getVM vms index
        let vm := vm.set_inputs [signal]
        let vm ← run (n + 1) vm
        let signal2 ← vm.get_last_output
        feedbackLoop n (vms.set index vm) ((index + 1) % 5) signal2

/-- calculate_feedback_loop_thruster_output in d07b.rs: five VMs on the same
program, each seeded with its phase input, then the feedback loop from
signal 0 at instance 0. -/
def calculate_feedback_loop_thruster_output (program : List Int)
    (inputs : List Int) (fuel : Nat) : Except Err Int := do
  let i0 ← match inputs.get? 0 with | some x => Except.ok x | none => .error .indexOutOfBounds
  let i1 ← match inputs.get? 1 with | some x => Except.ok x | none => .error .indexOutOfBounds
  let i2 ← match inputs.get? 2 with | some x => Except.ok x | none => .error .indexOutOfBounds
  let i3 ← match inputs.get? 3 with | some x => Except.ok x | none => .error .indexOutOfBounds
  let i4 ← match inputs.get? 4 with | some x => Except.ok x | none => .error .indexOutOfBounds
  let vms := [(VM.new program).set_inputs [i0], (VM.new program).set_inputs [i1],
              (VM.new program).set_inputs [i2], (VM.new program).set_inputs [i3],
              (VM.new program).set_inputs [i4]]
  feedbackLoop fuel vms 0 0

end D07b

section Claims

open Intcode

/-- Helper: when the store is shorter than 2^63 cells and the requested
address is at least 2^63 (as every wrapped negative i64 address is), the
availability check tries to double the address and the debug-checked usize
multiplication overflows. -/
lemma ensure_mem_availability_big {mem : List Int} {a : Nat}
    (hlen : mem.length < 2 ^ 63) (ha : 2 ^ 63 ≤ a) :
    ensure_mem_availability mem a = .error .arithOverflow := by
  unfold ensure_mem_availability usizeDouble usizeSize
  rw [if_pos (by omega), if_neg (by omega)]
  rfl

/-- Helper: the i64-to-usize cast of a negative i64 lands in the upper half
of the usize range. -/
lemma intToUsize_of_neg {v : Int} (h1 : i64Min ≤ v) (h2 : v < 0) :
    2 ^ 63 ≤ intToUsize v ∧ intToUsize v < 2 ^ 64 := by
  unfold intToUsize
  unfold i64Min at h1
  omega

/-- C1: the claim says an access at an address equal to the current length
zero-extends the store; the code's guard mem_size > len misses exactly that
boundary case and indexing panics. Reading address 3 of the length-3 program
4,3,99 crashes out of bounds, while reading address 4 of 4,4,99 (beyond the
length) grows the store with zero fill and reads 0, as the claim describes
for all addresses. -/
theorem claim_C1_access_at_length_crashes :
    runProgram [4, 3, 99] [] 10 = .error .indexOutOfBounds ∧
    runProgram [4, 4, 99] [] 10 =
      .ok { bytecode := [4, 4, 99, 0, 0, 0, 0, 0], pc := 3, inputs := [],
            outputs := [0], done := true, relative_base := 0 } :=
  ⟨rfl, rfl⟩

/-- C2 counterexample: the Input instruction of program 103,0,99 has an
Immediate-mode write destination, yet execution succeeds (storing the input
42 at address 0) instead of failing with InvalidWriteTarget. -/
theorem claim_C2_counterexample :
    runProgram [103, 0, 99] [42] 10 =
      .ok { bytecode := [42, 0, 99], pc := 3, inputs := [], outputs := [],
            done := true, relative_base := 0 } ∧
    runProgram [103, 0, 99] [42] 10 ≠ .error .invalidWriteTarget :=
  ⟨rfl, by decide⟩

/-- C2 amended: for Add, Multiply, LessThan and Equals the write destination
goes through get_absolute_address, which faults on an Immediate operand
(as program 10001,0,0,0,99 shows); the Input instruction bypasses it and
treats an Immediate destination exactly like Position, using the raw operand
value as the store address. -/
theorem claim_C2_immediate_write_target (vm : VM) (op : Operand)
    (h : op.mode = .Immediate) :
    get_absolute_address vm op = .error .invalidWriteTarget ∧
    runProgram [10001, 0, 0, 0, 99] [] 10 = .error .invalidWriteTarget ∧
    runProgram [103, 0, 99] [42] 10 =
      .ok { bytecode := [42, 0, 99], pc := 3, inputs := [], outputs := [],
            done := true, relative_base := 0 } := by
  refine ⟨?_, rfl, rfl⟩
  unfold get_absolute_address
  rw [h]

/-- Witness for C2 amended at a concrete Immediate operand. -/
theorem claim_C2_immediate_write_target_witness :
    get_absolute_address (VM.new []) { value := 5, mode := .Immediate }
      = .error .invalidWriteTarget ∧
    runProgram [10001, 0, 0, 0, 99] [] 10 = .error .invalidWriteTarget ∧
    runProgram [103, 0, 99] [42] 10 =
      .ok { bytecode := [42, 0, 99], pc := 3, inputs := [], outputs := [],
            done := true, relative_base := 0 } :=
  claim_C2_immediate_write_target (VM.new []) { value := 5, mode := .Immediate } rfl

/-- C4: the five-amplifier feedback ring on the day-7 example program with
phase seeds 9,8,7,6,5 settles at signal 139629729. -/
theorem claim_C4_feedback_ring :
    D07b.calculate_feedback_loop_thruster_output
      [3, 26, 1001, 26, -4, 26, 3, 27, 1002, 27, 2, 27, 1, 27, 26, 27, 4, 27,
       1001, 28, -1, 28, 1005, 28, 6, 99, 0, 0, 5]
      [9, 8, 7, 6, 5] 100 = .ok 139629729 :=
  rfl

/-- C5: run to completion with no inputs, the 16-word quine program outputs
exactly itself, element by element and in order. -/
theorem claim_C5_quine :
    Except.map VM.outputs
      (runProgram [109, 1, 204, -1, 1001, 100, 1, 100, 1008, 100, 16, 101,
                   1006, 101, 0, 99] [] 300)
      = .ok [109, 1, 204, -1, 1001, 100, 1, 100, 1008, 100, 16, 101,
             1006, 101, 0, 99] :=
  rfl

/-- C6 counterexample: program 4,-1,99 resolves a negative Position address;
execution aborts with the debug overflow panic of the usize doubling in
ensure_mem_availability (after the cast wrapped -1 to 2^64 - 1), not with a
NegativeAddress error. -/
theorem claim_C6_counterexample :
    runProgram [4, -1, 99] [] 10 = .error .arithOverflow ∧
    Err.arithOverflow ≠ Err.negativeAddress :=
  ⟨rfl, by decide⟩

/-- C6 amended: a negative resolved address (Position or Relative) is first
wrapped by the i64-to-usize cast to a value of at least 2^63; the memory
availability check then aborts fatally with the overflow panic of its usize
doubling — never with a dedicated NegativeAddress error and never by
substituting a default value. The same happens to a write via set_mem at any
wrapped (upper-half) address. -/
theorem claim_C6_negative_address_wraps :
    (∀ (vm : VM) (op : Operand), op.mode = .Position →
      i64Min ≤ op.value → op.value < 0 → vm.bytecode.length < 2 ^ 63 →
      get_value vm op = .error .arithOverflow) ∧
    (∀ (vm : VM) (op : Operand), op.mode = .Relative →
      i64Min ≤ op.value + vm.relative_base → op.value + vm.relative_base < 0 →
      vm.bytecode.length < 2 ^ 63 →
      get_value vm op = .error .arithOverflow) ∧
    (∀ (vm : VM) (address : Nat) (v : Int), 2 ^ 63 ≤ address →
      vm.bytecode.length < 2 ^ 63 →
      set_mem vm address v = .error .arithOverflow) := by
  refine ⟨?_, ?_, ?_⟩
  · intro vm op hm h1 h2 hlen
    obtain ⟨hlo, _⟩ := intToUsize_of_neg h1 h2
    unfold get_value
    rw [hm]
    simp only [ensure_mem_availability_big hlen hlo, error_bind]
  · intro vm op hm h1 h2 hlen
    obtain ⟨hlo, _⟩ := intToUsize_of_neg h1 h2
    unfold get_value
    rw [hm]
    have hadd : checkedAdd op.value vm.relative_base
        = .ok (op.value + vm.relative_base) := by
      unfold checkedAdd i64Max
      rw [if_neg (by unfold i64Min at h1 ⊢; omega)]
    simp only [hadd, ok_bind, ensure_mem_availability_big hlen hlo, error_bind]
  · intro vm address v ha hlen
    unfold set_mem
    simp only [ensure_mem_availability_big hlen ha, error_bind]

/-- Witness for C6 amended: the Position operand -1 on an empty-memory VM,
the Relative operand -1 at relative base 0, and a direct set_mem at the
wrapped address 2^64 - 1. -/
theorem claim_C6_negative_address_wraps_witness :
    get_value (VM.new []) { value := -1, mode := .Position }
      = .error .arithOverflow ∧
    get_value (VM.new []) { value := -1, mode := .Relative }
      = .error .arithOverflow ∧
    set_mem (VM.new []) (2 ^ 64 - 1) 7 = .error .arithOverflow :=
  ⟨claim_C6_negative_address_wraps.1 (VM.new []) _ rfl (by decide) (by decide)
      (by decide),
   claim_C6_negative_address_wraps.2.1 (VM.new []) _ rfl (by decide) (by decide)
      (by decide),
   claim_C6_negative_address_wraps.2.2 (VM.new []) _ 7 (by decide) (by decide)⟩

/-- C7: output values are exact 64-bit signed integers: 104,1125899906842624,99
outputs exactly 2^50 = 1125899906842624, and 1102,34915192,34915192,7,4,7,99,0
outputs exactly 34915192 * 34915192 = 1219070632396864, whose decimal
representation has 16 digits. -/
theorem claim_C7_large_values :
    Except.map VM.outputs (runProgram [104, 1125899906842624, 99] [] 10)
      = .ok [1125899906842624] ∧
    Except.map VM.outputs
      (runProgram [1102, 34915192, 34915192, 7, 4, 7, 99, 0] [] 10)
      = .ok [1219070632396864] ∧
    (1219070632396864 : Int) = 34915192 * 34915192 ∧
    (Nat.toDigits 10 1219070632396864).length = 16 :=
  ⟨rfl, rfl, by norm_num, rfl⟩

/-- C9: Halted is terminal: when done is already set, both run and
run_till_output return the very same state unchanged (memory, pc, relative
base, queues, log and status included), for any fuel. -/
theorem claim_C9_halted_is_terminal (vm : VM) (fuel1 fuel2 : Nat)
    (h : vm.done = true) :
    run fuel1 vm = .ok vm ∧ run_till_output fuel2 vm = .ok vm := by
  constructor
  · cases fuel1 <;> simp [run, h]
  · simp [run_till_output, h]

/-- The concrete state the program 99 halts in: used to witness C9. -/
def haltedVMExample : VM :=
  { bytecode := [99], pc := 1, inputs := [], outputs := [],
    done := true, relative_base := 0 }

/-- Witness for C9 at the concrete state reached by running the program 99. -/
theorem claim_C9_halted_is_terminal_witness :
    run 3 haltedVMExample = .ok haltedVMExample ∧
    run_till_output 5 haltedVMExample = .ok haltedVMExample :=
  claim_C9_halted_is_terminal haltedVMExample 3 5 rfl

end Claims

section SuspendResume

open Intcode

/-- Inversion for a successful monadic bind in the Except monad. -/
lemma bind_ok_iff {α β : Type} (x : Except Err α) (f : α → Except Err β) (b : β) :
    (x >>= f) = .ok b ↔ ∃ a, x = .ok a ∧ f a = .ok b := by
  cases x with
  | error e => simp [error_bind]
  | ok a => simp [ok_bind]

/-- Two VM states that agree on everything except (possibly) memory. -/
def MemOnly (a b : Intcode.VM) : Prop :=
  a.pc = b.pc ∧ a.inputs = b.inputs ∧ a.outputs = b.outputs ∧
    a.done = b.done ∧ a.relative_base = b.relative_base

lemma MemOnly.refl (a : Intcode.VM) : MemOnly a a :=
  ⟨rfl, rfl, rfl, rfl, rfl⟩

lemma MemOnly.trans {a b c : Intcode.VM} (h1 : MemOnly a b) (h2 : MemOnly b c) :
    MemOnly a c := by
  obtain ⟨p1, i1, o1, d1, r1⟩ := h1
  obtain ⟨p2, i2, o2, d2, r2⟩ := h2
  exact ⟨p1.trans p2, i1.trans i2, o1.trans o2, d1.trans d2, r1.trans r2⟩

/-- get_value only ever touches memory: pc, queues, log, status and relative
base come through unchanged. -/
lemma get_value_memOnly {vm vm' : VM} {op : Operand} {v : Int}
    (h : get_value vm op = .ok (vm', v)) : MemOnly vm' vm := by
  cases op with
  | mk value mode =>
    cases mode <;> simp only [get_value] at h
    · obtain ⟨mem, hmem, h⟩ := (bind_ok_iff _ _ _).1 h
      obtain ⟨w, hw, h⟩ := (bind_ok_iff _ _ _).1 h
      simp only [Except.ok.injEq, Prod.mk.injEq] at h
      obtain ⟨h1, h2⟩ := h
      subst h1
      exact MemOnly.refl _
    · simp only [Except.ok.injEq, Prod.mk.injEq] at h
      obtain ⟨h1, h2⟩ := h
      subst h1
      exact MemOnly.refl _
    · obtain ⟨s, hs, h⟩ := (bind_ok_iff _ _ _).1 h
      obtain ⟨mem, hmem, h⟩ := (bind_ok_iff _ _ _).1 h
      obtain ⟨w, hw, h⟩ := (bind_ok_iff _ _ _).1 h
      simp only [Except.ok.injEq, Prod.mk.injEq] at h
      obtain ⟨h1, h2⟩ := h
      subst h1
      exact MemOnly.refl _

/-- set_mem only ever touches memory. -/
lemma set_mem_memOnly {vm vm' : VM} {a : Nat} {v : Int}
    (h : set_mem vm a v = .ok vm') : MemOnly vm' vm := by
  unfold set_mem at h
  obtain ⟨mem, hmem, h⟩ := (bind_ok_iff _ _ _).1 h
  obtain ⟨mem2, hmem2, h⟩ := (bind_ok_iff _ _ _).1 h
  simp only [Except.ok.injEq] at h
  subst h
  exact MemOnly.refl _

/-- Case analysis on one successful loop iteration of run_till_output: a
continue leaves log and status untouched; a break is either the Halt exit
(status becomes done, log untouched) or the Output suspension (status kept,
exactly one value appended, pc advanced by 2 from the pre-step pc). -/
lemma step_ok_cases {vm : VM} {r : StepRes} (h : step vm = .ok r) :
    (∃ vm', r = .cont vm' ∧ vm'.outputs = vm.outputs ∧ vm'.done = vm.done) ∨
    (∃ vm', r = .brk vm' ∧ vm'.done = true ∧ vm'.outputs = vm.outputs) ∨
    (∃ (u : VM) (v : Int),
      r = .brk { u with outputs := u.outputs ++ [v], pc := u.pc + 2 } ∧
      u.outputs = vm.outputs ∧ u.done = vm.done ∧ u.pc = vm.pc) := by
  unfold step at h
  obtain ⟨inst, hinst, h⟩ := (bind_ok_iff _ _ _).1 h
  obtain ⟨opc, hopc, h⟩ := (bind_ok_iff _ _ _).1 h
  cases opc
  case Halt =>
    simp only [Except.ok.injEq] at h
    subst h
    exact Or.inr (Or.inl ⟨_, rfl, rfl, rfl⟩)
  case AdjustRelativeBase =>
    obtain ⟨op0, hop0, h⟩ := (bind_ok_iff _ _ _).1 h
    obtain ⟨⟨vm1, value⟩, hgv, h⟩ := (bind_ok_iff _ _ _).1 h
    obtain ⟨rb, hrb, h⟩ := (bind_ok_iff _ _ _).1 h
    simp only [Except.ok.injEq] at h
    subst h
    obtain ⟨-, -, ho, hd, -⟩ := get_value_memOnly hgv
    exact Or.inl ⟨_, rfl, ho, hd⟩
  case Add =>
    obtain ⟨op0, hop0, h⟩ := (bind_ok_iff _ _ _).1 h
    obtain ⟨op1, hop1, h⟩ := (bind_ok_iff _ _ _).1 h
    obtain ⟨op2, hop2, h⟩ := (bind_ok_iff _ _ _).1 h
    obtain ⟨⟨vm1, v1⟩, hg1, h⟩ := (bind_ok_iff _ _ _).1 h
    obtain ⟨⟨vm2, v2⟩, hg2, h⟩ := (bind_ok_iff _ _ _).1 h
    obtain ⟨dest, hdest, h⟩ := (bind_ok_iff _ _ _).1 h
    obtain ⟨s, hsum, h⟩ := (bind_ok_iff _ _ _).1 h
    obtain ⟨vm3, hset, h⟩ := (bind_ok_iff _ _ _).1 h
    simp only [Except.ok.injEq] at h
    subst h
    obtain ⟨-, -, ho, hd, -⟩ :=
      (set_mem_memOnly hset).trans ((get_value_memOnly hg2).trans (get_value_memOnly hg1))
    exact Or.inl ⟨_, rfl, ho, hd⟩
  case Multiply =>
    obtain ⟨op0, hop0, h⟩ := (bind_ok_iff _ _ _).1 h
    obtain ⟨op1, hop1, h⟩ := (bind_ok_iff _ _ _).1 h
    obtain ⟨op2, hop2, h⟩ := (bind_ok_iff _ _ _).1 h
    obtain ⟨⟨vm1, v1⟩, hg1, h⟩ := (bind_ok_iff _ _ _).1 h
    obtain ⟨⟨vm2, v2⟩, hg2, h⟩ := (bind_ok_iff _ _ _).1 h
    obtain ⟨dest, hdest, h⟩ := (bind_ok_iff _ _ _).1 h
    obtain ⟨s, hsum, h⟩ := (bind_ok_iff _ _ _).1 h
    obtain ⟨vm3, hset, h⟩ := (bind_ok_iff _ _ _).1 h
    simp only [Except.ok.injEq] at h
    subst h
    obtain ⟨-, -, ho, hd, -⟩ :=
      (set_mem_memOnly hset).trans ((get_value_memOnly hg2).trans (get_value_memOnly hg1))
    exact Or.inl ⟨_, rfl, ho, hd⟩
  case Input =>
    cases hi : vm.inputs with
    | nil =>
      rw [hi] at h
      exact absurd h (by simp)
    | cons inp rest =>
      rw [hi] at h
      obtain ⟨op0, hop0, h⟩ := (bind_ok_iff _ _ _).1 h
      obtain ⟨address, haddr, h⟩ := (bind_ok_iff _ _ _).1 h
      obtain ⟨vm1, hset, h⟩ := (bind_ok_iff _ _ _).1 h
      simp only [Except.ok.injEq] at h
      subst h
      obtain ⟨-, -, ho, hd, -⟩ := set_mem_memOnly hset
      exact Or.inl ⟨_, rfl, ho, hd⟩
  case Output =>
    obtain ⟨op0, hop0, h⟩ := (bind_ok_iff _ _ _).1 h
    obtain ⟨⟨vm1, value⟩, hgv, h⟩ := (bind_ok_iff _ _ _).1 h
    simp only [Except.ok.injEq] at h
    subst h
    obtain ⟨hp, -, ho, hd, -⟩ := get_value_memOnly hgv
    exact Or.inr (Or.inr ⟨vm1, value, rfl, ho, hd, hp⟩)
  case JumpIfTrue =>
    obtain ⟨op0, hop0, h⟩ := (bind_ok_iff _ _ _).1 h
    obtain ⟨p, hg1, h⟩ := (bind_ok_iff _ _ _).1 h
    split at h
    · obtain ⟨op1, hop1, h⟩ := (bind_ok_iff _ _ _).1 h
      obtain ⟨q, hg2, h⟩ := (bind_ok_iff _ _ _).1 h
      simp only [Except.ok.injEq] at h
      subst h
      obtain ⟨-, -, ho, hd, -⟩ := (get_value_memOnly hg2).trans (get_value_memOnly hg1)
      exact Or.inl ⟨_, rfl, ho, hd⟩
    · simp only [Except.ok.injEq] at h
      subst h
      obtain ⟨-, -, ho, hd, -⟩ := get_value_memOnly hg1
      exact Or.inl ⟨_, rfl, ho, hd⟩
  case JumpIfFalse =>
    obtain ⟨op0, hop0, h⟩ := (bind_ok_iff _ _ _).1 h
    obtain ⟨p, hg1, h⟩ := (bind_ok_iff _ _ _).1 h
    split at h
    · obtain ⟨op1, hop1, h⟩ := (bind_ok_iff _ _ _).1 h
      obtain ⟨q, hg2, h⟩ := (bind_ok_iff _ _ _).1 h
      simp only [Except.ok.injEq] at h
      subst h
      obtain ⟨-, -, ho, hd, -⟩ := (get_value_memOnly hg2).trans (get_value_memOnly hg1)
      exact Or.inl ⟨_, rfl, ho, hd⟩
    · simp only [Except.ok.injEq] at h
      subst h
      obtain ⟨-, -, ho, hd, -⟩ := get_value_memOnly hg1
      exact Or.inl ⟨_, rfl, ho, hd⟩
  case LessThan =>
    obtain ⟨op0, hop0, h⟩ := (bind_ok_iff _ _ _).1 h
    obtain ⟨op1, hop1, h⟩ := (bind_ok_iff _ _ _).1 h
    obtain ⟨op2, hop2, h⟩ := (bind_ok_iff _ _ _).1 h
    obtain ⟨⟨vm1, v1⟩, hg1, h⟩ := (bind_ok_iff _ _ _).1 h
    obtain ⟨⟨vm2, v2⟩, hg2, h⟩ := (bind_ok_iff _ _ _).1 h
    obtain ⟨address, haddr, h⟩ := (bind_ok_iff _ _ _).1 h
    obtain ⟨vm3, hset, h⟩ := (bind_ok_iff _ _ _).1 h
    simp only [Except.ok.injEq] at h
    subst h
    obtain ⟨-, -, ho, hd, -⟩ :=
      (set_mem_memOnly hset).trans ((get_value_memOnly hg2).trans (get_value_memOnly hg1))
    exact Or.inl ⟨_, rfl, ho, hd⟩
  case Equals =>
    obtain ⟨op0, hop0, h⟩ := (bind_ok_iff _ _ _).1 h
    obtain ⟨op1, hop1, h⟩ := (bind_ok_iff _ _ _).1 h
    obtain ⟨op2, hop2, h⟩ := (bind_ok_iff _ _ _).1 h
    obtain ⟨⟨vm1, v1⟩, hg1, h⟩ := (bind_ok_iff _ _ _).1 h
    obtain ⟨⟨vm2, v2⟩, hg2, h⟩ := (bind_ok_iff _ _ _).1 h
    obtain ⟨address, haddr, h⟩ := (bind_ok_iff _ _ _).1 h
    obtain ⟨vm3, hset, h⟩ := (bind_ok_iff _ _ _).1 h
    simp only [Except.ok.injEq] at h
    subst h
    obtain ⟨-, -, ho, hd, -⟩ :=
      (set_mem_memOnly hset).trans ((get_value_memOnly hg2).trans (get_value_memOnly hg1))
    exact Or.inl ⟨_, rfl, ho, hd⟩

/-- When the run_till_output loop finishes in a non-done state, the exit was
an Output suspension: one step broke out from some pre-step state, and
exactly one value was appended to the log accumulated so far, with the pc
moved 2 past that pre-step pc. -/
lemma loopRun_suspend {f : Nat} {vm vm' : VM}
    (h : loopRun f vm = .ok vm') (hd : vm'.done = false) :
    ∃ (u : VM) (v : Int), step u = .ok (.brk vm') ∧
      vm'.outputs = u.outputs ++ [v] ∧ vm'.pc = u.pc + 2 ∧
      u.outputs = vm.outputs := by
  induction f generalizing vm with
  | zero => exact absurd h (by simp [loopRun])
  | succ n ih =>
    unfold loopRun at h
    obtain ⟨r, hstep, h⟩ := (bind_ok_iff _ _ _).1 h
    cases r with
    | brk vm2 =>
      have hv : vm2 = vm' := Except.ok.inj h
      subst hv
      rcases step_ok_cases hstep with ⟨x, hr, -, -⟩ | ⟨x, hr, hdone, -⟩ |
          ⟨u, v, hr, ho, -, hp⟩
      · simp at hr
      · obtain rfl : vm2 = x := StepRes.brk.inj hr
        rw [hdone] at hd
        cases hd
      · have hbody : vm2 = { u with outputs := u.outputs ++ [v], pc := u.pc + 2 } :=
          StepRes.brk.inj hr
        subst hbody
        exact ⟨vm, v, hstep, by simp [ho], by simp [hp], rfl⟩
    | cont vm2 =>
      have h' : loopRun n vm2 = .ok vm' := h
      rcases step_ok_cases hstep with ⟨x, hr, ho, -⟩ | ⟨x, hr, -, -⟩ |
          ⟨u, v, hr, -, -, -⟩
      · obtain rfl : vm2 = x := StepRes.cont.inj hr
        obtain ⟨u, v, hs, h1, h2, h3⟩ := ih h'
        exact ⟨u, v, hs, h1, h2, h3.trans ho⟩
      · simp at hr
      · simp at hr

/-- C3: two successive suspending run_till_output calls append exactly one
log entry each, in program order; and each suspension state arises from one
breaking step that appended its value and advanced pc by 2. -/
theorem claim_C3_suspend_per_output (vm vm1 vm2 : VM) (f1 f2 : Nat)
    (h1 : run_till_output f1 vm = .ok vm1) (hd1 : vm1.done = false)
    (h2 : run_till_output f2 vm1 = .ok vm2) (hd2 : vm2.done = false) :
    ∃ (v w : Int), vm1.outputs = vm.outputs ++ [v] ∧
      vm2.outputs = vm.outputs ++ [v, w] ∧
      (∃ u : VM, step u = .ok (.brk vm1) ∧ vm1.outputs = u.outputs ++ [v] ∧
        vm1.pc = u.pc + 2) ∧
      (∃ u : VM, step u = .ok (.brk vm2) ∧ vm2.outputs = u.outputs ++ [w] ∧
        vm2.pc = u.pc + 2) := by
  unfold run_till_output at h1 h2
  by_cases hvd : vm.done = true
  · rw [if_pos hvd] at h1
    have hv : vm = vm1 := Except.ok.inj h1
    subst hv
    rw [hvd] at hd1
    cases hd1
  · rw [if_neg (by simpa using hd1)] at h2
    rw [if_neg hvd] at h1
    obtain ⟨u1, v, hs1, ho1, hp1, hacc1⟩ := loopRun_suspend h1 hd1
    obtain ⟨u2, w, hs2, ho2, hp2, hacc2⟩ := loopRun_suspend h2 hd2
    refine ⟨v, w, by rw [ho1, hacc1], ?_, ⟨u1, hs1, ho1, hp1⟩, ⟨u2, hs2, ho2, hp2⟩⟩
    rw [ho2, hacc2, ho1, hacc1, List.append_assoc]
    rfl

end SuspendResume

section SuspendWitness

open Intcode

/-- The program 104,7,104,8,99 before its first run_until_output call. -/
def suspendExample0 : Intcode.VM := Intcode.VM.new [104, 7, 104, 8, 99]

/-- The same program suspended right after its first Output. -/
def suspendExample1 : Intcode.VM :=
  { bytecode := [104, 7, 104, 8, 99], pc := 2, inputs := [], outputs := [7],
    done := false, relative_base := 0 }

/-- The same program suspended right after its second Output. -/
def suspendExample2 : Intcode.VM :=
  { bytecode := [104, 7, 104, 8, 99], pc := 4, inputs := [], outputs := [7, 8],
    done := false, relative_base := 0 }

/-- Witness for C3 on the two-output program 104,7,104,8,99. -/
theorem claim_C3_suspend_per_output_witness :
    ∃ (v w : Int),
      suspendExample1.outputs = suspendExample0.outputs ++ [v] ∧
      suspendExample2.outputs = suspendExample0.outputs ++ [v, w] ∧
      (∃ u : VM, step u = .ok (.brk suspendExample1) ∧
        suspendExample1.outputs = u.outputs ++ [v] ∧
        suspendExample1.pc = u.pc + 2) ∧
      (∃ u : VM, step u = .ok (.brk suspendExample2) ∧
        suspendExample2.outputs = u.outputs ++ [w] ∧
        suspendExample2.pc = u.pc + 2) :=
  claim_C3_suspend_per_output suspendExample0 suspendExample1 suspendExample2
    10 10 rfl rfl rfl rfl

end SuspendWitness

section DecoderDigits

open Intcode

/-- Truncating Int remainder agrees with Nat remainder on casts. -/
lemma tmod_cast (a b : Nat) : ((a : Int)).tmod b = ((a % b : Nat) : Int) := rfl

/-- Truncating Int division agrees with Nat division on casts. -/
lemma tdiv_cast (a b : Nat) : ((a : Int)).tdiv b = ((a / b : Nat) : Int) := rfl

/-- Mode digit 0 (hundreds place) of a nonnegative word. -/
lemma parse_slot0 (m d0 : Nat) (h : m % 1000 / 100 = d0) :
    Mode.parse ((m : Nat) : Int) 0 = Mode.ofInt ((d0 : Nat) : Int) := by
  subst h
  rfl

/-- Mode digit 1 (thousands place) of a nonnegative word. -/
lemma parse_slot1 (m d1 : Nat) (h : m % 10000 / 1000 = d1) :
    Mode.parse ((m : Nat) : Int) 1 = Mode.ofInt ((d1 : Nat) : Int) := by
  subst h
  rfl

/-- Mode digit 2 (ten-thousands place) of a nonnegative word. -/
lemma parse_slot2 (m d2 : Nat) (h : m % 100000 / 10000 = d2) :
    Mode.parse ((m : Nat) : Int) 2 = Mode.ofInt ((d2 : Nat) : Int) := by
  subst h
  rfl

/-- A digit below 3 is a known mode. -/
lemma modeOfInt_lt3 (d : Nat) (hd : d < 3) : ∃ m, Mode.ofInt ((d : Nat) : Int) = .ok m := by
  interval_cases d
  · exact ⟨_, rfl⟩
  · exact ⟨_, rfl⟩
  · exact ⟨_, rfl⟩

/-- A digit of 3 or more is an unknown mode. -/
lemma modeOfInt_ge3 (d : Nat) (hd : 3 ≤ d) : Mode.ofInt ((d : Nat) : Int) = .error .unknownMode := by
  obtain ⟨e, rfl⟩ : ∃ e, d = e + 3 := ⟨d - 3, by omega⟩
  rfl

/-- Decoding a one-operand instruction word w (Input, Output or
AdjustRelativeBase) in the 4-cell memory w,0,0,0 parses exactly the slot-0
mode digit. -/
lemma decode_one (w : Int) (opc : Opcode) (hopc : Opcode.ofInt w = .ok opc)
    (h1 : opc = .Input ∨ opc = .Output ∨ opc = .AdjustRelativeBase) :
    get_next_instruction (VM.new [w, 0, 0, 0]) =
      Mode.parse (w - w.tmod 100) 0 >>= fun m0 =>
        Except.ok { opcode := w.tmod 100, operands := [{ value := 0, mode := m0 }] } := by
  have hm0 : memGet [w, 0, 0, 0] 0 = .ok w := rfl
  have hma : memGet [w, 0, 0, 0] (0 + 1) = .ok 0 := rfl
  have hmb : memGet [w, 0, 0, 0] 1 = .ok 0 := rfl
  rcases h1 with rfl | rfl | rfl <;>
    cases hp0 : Mode.parse (w - w.tmod 100) 0 <;>
      simp only [get_next_instruction, VM.new, fetchOperand, hm0, hma, hmb,
        hopc, hp0, ok_bind, error_bind, zero_add]

/-- Decoding a two-operand instruction word w (JumpIfTrue or JumpIfFalse) in
the memory w,0,0,0 parses exactly the slot-0 and slot-1 mode digits. -/
lemma decode_two (w : Int) (opc : Opcode) (hopc : Opcode.ofInt w = .ok opc)
    (h1 : opc = .JumpIfTrue ∨ opc = .JumpIfFalse) :
    get_next_instruction (VM.new [w, 0, 0, 0]) =
      Mode.parse (w - w.tmod 100) 0 >>= fun m0 =>
      Mode.parse (w - w.tmod 100) 1 >>= fun m1 =>
        Except.ok (Instruction.mk (w.tmod 100)
          [Operand.mk 0 m0, Operand.mk 0 m1]) := by
  have hm0 : memGet [w, 0, 0, 0] 0 = .ok w := rfl
  have hma : memGet [w, 0, 0, 0] (0 + 1) = .ok 0 := rfl
  have hmb : memGet [w, 0, 0, 0] 1 = .ok 0 := rfl
  have hmc : memGet [w, 0, 0, 0] (0 + 2) = .ok 0 := rfl
  have hmd : memGet [w, 0, 0, 0] 2 = .ok 0 := rfl
  rcases h1 with rfl | rfl <;>
    cases hp0 : Mode.parse (w - w.tmod 100) 0 <;>
      cases hp1 : Mode.parse (w - w.tmod 100) 1 <;>
        simp only [get_next_instruction, VM.new, fetchOperand, hm0, hma, hmb,
          hmc, hmd, hopc, hp0, hp1, ok_bind, error_bind, zero_add]

/-- Decoding a three-operand instruction word w (Add, Multiply, LessThan or
Equals) in the memory w,0,0,0 parses exactly the slot-0, 1 and 2 mode
digits. -/
lemma decode_three (w : Int) (opc : Opcode) (hopc : Opcode.ofInt w = .ok opc)
    (h1 : opc = .Add ∨ opc = .Multiply ∨ opc = .LessThan ∨ opc = .Equals) :
    get_next_instruction (VM.new [w, 0, 0, 0]) =
      Mode.parse (w - w.tmod 100) 0 >>= fun m0 =>
      Mode.parse (w - w.tmod 100) 1 >>= fun m1 =>
      Mode.parse (w - w.tmod 100) 2 >>= fun m2 =>
        Except.ok (Instruction.mk (w.tmod 100)
          [Operand.mk 0 m0, Operand.mk 0 m1, Operand.mk 0 m2]) := by
  have hm0 : memGet [w, 0, 0, 0] 0 = .ok w := rfl
  have hma : memGet [w, 0, 0, 0] (0 + 1) = .ok 0 := rfl
  have hmb : memGet [w, 0, 0, 0] 1 = .ok 0 := rfl
  have hmc : memGet [w, 0, 0, 0] (0 + 2) = .ok 0 := rfl
  have hmd : memGet [w, 0, 0, 0] 2 = .ok 0 := rfl
  have hme : memGet [w, 0, 0, 0] (0 + 3) = .ok 0 := rfl
  have hmf : memGet [w, 0, 0, 0] 3 = .ok 0 := rfl
  rcases h1 with rfl | rfl | rfl | rfl <;>
    cases hp0 : Mode.parse (w - w.tmod 100) 0 <;>
      cases hp1 : Mode.parse (w - w.tmod 100) 1 <;>
        cases hp2 : Mode.parse (w - w.tmod 100) 2 <;>
          simp only [get_next_instruction, VM.new, fetchOperand, hm0, hma, hmb,
            hmc, hmd, hme, hmf, hopc, hp0, hp1, hp2, ok_bind, error_bind, zero_add]

end DecoderDigits

section DecoderClaim

open Intcode

/-- Truncating remainder by 100 on a cast of a Nat. -/
lemma tmod100_cast (a : Nat) : ((a : Nat) : Int).tmod 100 = ((a % 100 : Nat) : Int) := rfl

/-- Opcode decoding looks only at the word modulo 100. -/
lemma opcode_of_mod (k c : Nat) (hc : c < 100) (h : k % 100 = c) :
    Opcode.ofInt ((k : Nat) : Int) = Opcode.ofInt ((c : Nat) : Int) := by
  unfold Opcode.ofInt
  rw [tmod100_cast, h, tmod100_cast, Nat.mod_eq_of_lt hc]

/-- C10: the decoder validates only the mode digits of the operand slots the
opcode reads. For one-operand opcodes (3 Input, 4 Output, 9
AdjustRelativeBase): any digits from the thousands place up are silently
ignored (the decode result is the same with them stripped), the decode
succeeds whenever the hundreds digit is below 3, and fails with
UnknownAddressingMode exactly when that read digit is 3 or more. For
two-operand opcodes (5, 6) the same holds for the hundreds and thousands
digits with the ten-thousands place and up ignored; for three-operand
opcodes (1, 2, 7, 8) for the three digits with the 10^5 place and up
ignored. -/
theorem claim_C10_unread_mode_digits_ignored :
    (∀ (op d0 n : Nat), op = 3 ∨ op = 4 ∨ op = 9 → d0 < 10 →
      (get_next_instruction
          (VM.new [((op + 100 * d0 + 1000 * n : Nat) : Int), 0, 0, 0])
        = get_next_instruction (VM.new [((op + 100 * d0 : Nat) : Int), 0, 0, 0])) ∧
      (d0 < 3 → ∃ inst, get_next_instruction
          (VM.new [((op + 100 * d0 + 1000 * n : Nat) : Int), 0, 0, 0]) = .ok inst) ∧
      (3 ≤ d0 → get_next_instruction
          (VM.new [((op + 100 * d0 + 1000 * n : Nat) : Int), 0, 0, 0])
        = .error .unknownMode)) ∧
    (∀ (op d0 d1 n : Nat), op = 5 ∨ op = 6 → d0 < 10 → d1 < 10 →
      (get_next_instruction
          (VM.new [((op + 100 * d0 + 1000 * d1 + 10000 * n : Nat) : Int), 0, 0, 0])
        = get_next_instruction
          (VM.new [((op + 100 * d0 + 1000 * d1 : Nat) : Int), 0, 0, 0])) ∧
      (d0 < 3 → d1 < 3 → ∃ inst, get_next_instruction
          (VM.new [((op + 100 * d0 + 1000 * d1 + 10000 * n : Nat) : Int), 0, 0, 0])
        = .ok inst) ∧
      (3 ≤ d0 ∨ 3 ≤ d1 → get_next_instruction
          (VM.new [((op + 100 * d0 + 1000 * d1 + 10000 * n : Nat) : Int), 0, 0, 0])
        = .error .unknownMode)) ∧
    (∀ (op d0 d1 d2 n : Nat), op = 1 ∨ op = 2 ∨ op = 7 ∨ op = 8 →
      d0 < 10 → d1 < 10 → d2 < 10 →
      (get_next_instruction
          (VM.new [((op + 100 * d0 + 1000 * d1 + 10000 * d2 + 100000 * n : Nat) : Int), 0, 0, 0])
        = get_next_instruction
          (VM.new [((op + 100 * d0 + 1000 * d1 + 10000 * d2 : Nat) : Int), 0, 0, 0])) ∧
      (d0 < 3 → d1 < 3 → d2 < 3 → ∃ inst, get_next_instruction
          (VM.new [((op + 100 * d0 + 1000 * d1 + 10000 * d2 + 100000 * n : Nat) : Int), 0, 0, 0])
        = .ok inst) ∧
      (3 ≤ d0 ∨ 3 ≤ d1 ∨ 3 ≤ d2 → get_next_instruction
          (VM.new [((op + 100 * d0 + 1000 * d1 + 10000 * d2 + 100000 * n : Nat) : Int), 0, 0, 0])
        = .error .unknownMode)) := by
  refine ⟨?_, ?_, ?_⟩
  · intro op d0 n hop hd0
    have hop100 : op < 100 := by rcases hop with rfl | rfl | rfl <;> norm_num
    have e1 : (op + 100 * d0 + 1000 * n) % 100 = op := by omega
    have e2 : (op + 100 * d0) % 100 = op := by omega
    have ho1 := opcode_of_mod (op + 100 * d0 + 1000 * n) op hop100 e1
    have ho2 := opcode_of_mod (op + 100 * d0) op hop100 e2
    obtain ⟨opc, hopc, hmem⟩ : ∃ opc, Opcode.ofInt ((op : Nat) : Int) = .ok opc ∧
        (opc = .Input ∨ opc = .Output ∨ opc = .AdjustRelativeBase) := by
      rcases hop with rfl | rfl | rfl
      · exact ⟨.Input, rfl, Or.inl rfl⟩
      · exact ⟨.Output, rfl, Or.inr (Or.inl rfl)⟩
      · exact ⟨.AdjustRelativeBase, rfl, Or.inr (Or.inr rfl)⟩
    have hd1 := decode_one _ opc (ho1.trans hopc) hmem
    have hd2 := decode_one _ opc (ho2.trans hopc) hmem
    have hm1 : ((op + 100 * d0 + 1000 * n : Nat) : Int)
        - ((op + 100 * d0 + 1000 * n : Nat) : Int).tmod 100
        = ((100 * d0 + 1000 * n : Nat) : Int) := by
      rw [tmod100_cast, e1]
      push_cast
      ring
    have hm2 : ((op + 100 * d0 : Nat) : Int)
        - ((op + 100 * d0 : Nat) : Int).tmod 100 = ((100 * d0 : Nat) : Int) := by
      rw [tmod100_cast, e2]
      push_cast
      ring
    have ht1 : ((op + 100 * d0 + 1000 * n : Nat) : Int).tmod 100 = ((op : Nat) : Int) := by
      rw [tmod100_cast, e1]
    have ht2 : ((op + 100 * d0 : Nat) : Int).tmod 100 = ((op : Nat) : Int) := by
      rw [tmod100_cast, e2]
    rw [hm1, ht1, parse_slot0 _ d0 (by omega)] at hd1
    rw [hm2, ht2, parse_slot0 _ d0 (by omega)] at hd2
    refine ⟨hd1.trans hd2.symm, ?_, ?_⟩
    · intro h3
      obtain ⟨m, hm⟩ := modeOfInt_lt3 d0 h3
      exact ⟨_, by rw [hd1, hm, ok_bind]⟩
    · intro h3
      rw [hd1, modeOfInt_ge3 d0 h3, error_bind]
  · intro op d0 d1 n hop hd0 hd1b
    have hop100 : op < 100 := by rcases hop with rfl | rfl <;> norm_num
    have e1 : (op + 100 * d0 + 1000 * d1 + 10000 * n) % 100 = op := by omega
    have e2 : (op + 100 * d0 + 1000 * d1) % 100 = op := by omega
    have ho1 := opcode_of_mod (op + 100 * d0 + 1000 * d1 + 10000 * n) op hop100 e1
    have ho2 := opcode_of_mod (op + 100 * d0 + 1000 * d1) op hop100 e2
    obtain ⟨opc, hopc, hmem⟩ : ∃ opc, Opcode.ofInt ((op : Nat) : Int) = .ok opc ∧
        (opc = .JumpIfTrue ∨ opc = .JumpIfFalse) := by
      rcases hop with rfl | rfl
      · exact ⟨.JumpIfTrue, rfl, Or.inl rfl⟩
      · exact ⟨.JumpIfFalse, rfl, Or.inr rfl⟩
    have hq1 := decode_two _ opc (ho1.trans hopc) hmem
    have hq2 := decode_two _ opc (ho2.trans hopc) hmem
    have hm1 : ((op + 100 * d0 + 1000 * d1 + 10000 * n : Nat) : Int)
        - ((op + 100 * d0 + 1000 * d1 + 10000 * n : Nat) : Int).tmod 100
        = ((100 * d0 + 1000 * d1 + 10000 * n : Nat) : Int) := by
      rw [tmod100_cast, e1]
      push_cast
      ring
    have hm2 : ((op + 100 * d0 + 1000 * d1 : Nat) : Int)
        - ((op + 100 * d0 + 1000 * d1 : Nat) : Int).tmod 100
        = ((100 * d0 + 1000 * d1 : Nat) : Int) := by
      rw [tmod100_cast, e2]
      push_cast
      ring
    have ht1 : ((op + 100 * d0 + 1000 * d1 + 10000 * n : Nat) : Int).tmod 100
        = ((op : Nat) : Int) := by
      rw [tmod100_cast, e1]
    have ht2 : ((op + 100 * d0 + 1000 * d1 : Nat) : Int).tmod 100
        = ((op : Nat) : Int) := by
      rw [tmod100_cast, e2]
    rw [hm1, ht1, parse_slot0 _ d0 (by omega), parse_slot1 _ d1 (by omega)] at hq1
    rw [hm2, ht2, parse_slot0 _ d0 (by omega), parse_slot1 _ d1 (by omega)] at hq2
    refine ⟨hq1.trans hq2.symm, ?_, ?_⟩
    · intro h3 h4
      obtain ⟨m0, hmm0⟩ := modeOfInt_lt3 d0 h3
      obtain ⟨m1, hmm1⟩ := modeOfInt_lt3 d1 h4
      exact ⟨_, by rw [hq1, hmm0, ok_bind, hmm1, ok_bind]⟩
    · intro h3
      by_cases hc : d0 < 3
      · obtain ⟨m0, hmm0⟩ := modeOfInt_lt3 d0 hc
        have h4 : 3 ≤ d1 := by omega
        rw [hq1, hmm0, ok_bind, modeOfInt_ge3 d1 h4, error_bind]
      · rw [hq1, modeOfInt_ge3 d0 (by omega), error_bind]
  · intro op d0 d1 d2 n hop hd0 hd1b hd2b
    have hop100 : op < 100 := by rcases hop with rfl | rfl | rfl | rfl <;> norm_num
    have e1 : (op + 100 * d0 + 1000 * d1 + 10000 * d2 + 100000 * n) % 100 = op := by
      omega
    have e2 : (op + 100 * d0 + 1000 * d1 + 10000 * d2) % 100 = op := by omega
    have ho1 := opcode_of_mod
      (op + 100 * d0 + 1000 * d1 + 10000 * d2 + 100000 * n) op hop100 e1
    have ho2 := opcode_of_mod (op + 100 * d0 + 1000 * d1 + 10000 * d2) op hop100 e2
    obtain ⟨opc, hopc, hmem⟩ : ∃ opc, Opcode.ofInt ((op : Nat) : Int) = .ok opc ∧
        (opc = .Add ∨ opc = .Multiply ∨ opc = .LessThan ∨ opc = .Equals) := by
      rcases hop with rfl | rfl | rfl | rfl
      · exact ⟨.Add, rfl, Or.inl rfl⟩
      · exact ⟨.Multiply, rfl, Or.inr (Or.inl rfl)⟩
      · exact ⟨.LessThan, rfl, Or.inr (Or.inr (Or.inl rfl))⟩
      · exact ⟨.Equals, rfl, Or.inr (Or.inr (Or.inr rfl))⟩
    have hq1 := decode_three _ opc (ho1.trans hopc) hmem
    have hq2 := decode_three _ opc (ho2.trans hopc) hmem
    have hm1 : ((op + 100 * d0 + 1000 * d1 + 10000 * d2 + 100000 * n : Nat) : Int)
        - ((op + 100 * d0 + 1000 * d1 + 10000 * d2 + 100000 * n : Nat) : Int).tmod 100
        = ((100 * d0 + 1000 * d1 + 10000 * d2 + 100000 * n : Nat) : Int) := by
      rw [tmod100_cast, e1]
      push_cast
      ring
    have hm2 : ((op + 100 * d0 + 1000 * d1 + 10000 * d2 : Nat) : Int)
        - ((op + 100 * d0 + 1000 * d1 + 10000 * d2 : Nat) : Int).tmod 100
        = ((100 * d0 + 1000 * d1 + 10000 * d2 : Nat) : Int) := by
      rw [tmod100_cast, e2]
      push_cast
      ring
    have ht1 : ((op + 100 * d0 + 1000 * d1 + 10000 * d2 + 100000 * n : Nat) : Int).tmod 100
        = ((op : Nat) : Int) := by
      rw [tmod100_cast, e1]
    have ht2 : ((op + 100 * d0 + 1000 * d1 + 10000 * d2 : Nat) : Int).tmod 100
        = ((op : Nat) : Int) := by
      rw [tmod100_cast, e2]
    rw [hm1, ht1, parse_slot0 _ d0 (by omega), parse_slot1 _ d1 (by omega),
      parse_slot2 _ d2 (by omega)] at hq1
    rw [hm2, ht2, parse_slot0 _ d0 (by omega), parse_slot1 _ d1 (by omega),
      parse_slot2 _ d2 (by omega)] at hq2
    refine ⟨hq1.trans hq2.symm, ?_, ?_⟩
    · intro h3 h4 h5
      obtain ⟨m0, hmm0⟩ := modeOfInt_lt3 d0 h3
      obtain ⟨m1, hmm1⟩ := modeOfInt_lt3 d1 h4
      obtain ⟨m2, hmm2⟩ := modeOfInt_lt3 d2 h5
      exact ⟨_, by rw [hq1, hmm0, ok_bind, hmm1, ok_bind, hmm2, ok_bind]⟩
    · intro h3
      by_cases hc0 : d0 < 3
      · obtain ⟨m0, hmm0⟩ := modeOfInt_lt3 d0 hc0
        by_cases hc1 : d1 < 3
        · obtain ⟨m1, hmm1⟩ := modeOfInt_lt3 d1 hc1
          have h5 : 3 ≤ d2 := by omega
          rw [hq1, hmm0, ok_bind, hmm1, ok_bind, modeOfInt_ge3 d2 h5, error_bind]
        · rw [hq1, hmm0, ok_bind, modeOfInt_ge3 d1 (by omega), error_bind]
      · rw [hq1, modeOfInt_ge3 d0 (by omega), error_bind]

/-- Witness for C10: the Input word 7203 (thousands digit 7, an unread slot)
decodes exactly like 203 and succeeds; the Add word 301 (hundreds digit 3, a
read slot) fails with UnknownAddressingMode. -/
theorem claim_C10_unread_mode_digits_ignored_witness :
    (get_next_instruction (VM.new [((3 + 100 * 2 + 1000 * 7 : Nat) : Int), 0, 0, 0])
      = get_next_instruction (VM.new [((3 + 100 * 2 : Nat) : Int), 0, 0, 0])) ∧
    (∃ inst, get_next_instruction
        (VM.new [((3 + 100 * 2 + 1000 * 7 : Nat) : Int), 0, 0, 0]) = .ok inst) ∧
    (get_next_instruction
        (VM.new [((1 + 100 * 3 + 1000 * 0 + 10000 * 0 + 100000 * 0 : Nat) : Int), 0, 0, 0])
      = .error .unknownMode) :=
  ⟨(claim_C10_unread_mode_digits_ignored.1 3 2 7 (Or.inl rfl) (by norm_num)).1,
   (claim_C10_unread_mode_digits_ignored.1 3 2 7 (Or.inl rfl) (by norm_num)).2.1
     (by norm_num),
   (claim_C10_unread_mode_digits_ignored.2.2 1 3 0 0 0 (Or.inl rfl) (by norm_num)
     (by norm_num) (by norm_num)).2.2 (Or.inl (by norm_num))⟩

end DecoderClaim

section AddMulHalt

open Intcode

/-- Lookup succeeding means the index is in bounds. -/
lemma get?_some_lt {l : List Int} {n : Nat} {a : Int} (h : l.get? n = some a) :
    n < l.length := by
  by_cases hlt : n < l.length
  · exact hlt
  · rw [List.get?_eq_none.2 (by omega)] at h
    cases h

/-- A valid positional read of the direct arithmetic interpretation: the raw
operand must be a nonnegative in-bounds address. -/
def readPos (mem : List Int) (x : Int) : Option Int :=
  if 0 ≤ x then mem.get? x.toNat else none

/-- A valid positional write of the direct arithmetic interpretation. -/
def writePos (mem : List Int) (z : Int) (v : Int) : Option (List Int) :=
  if 0 ≤ z ∧ z.toNat < mem.length then some (mem.set z.toNat v) else none

/-- A value representable in a 64-bit signed integer. -/
def inI64 (v : Int) : Option Int :=
  if i64Min ≤ v ∧ v ≤ i64Max then some v else none

/-- Modelled from the spec: the direct arithmetic interpretation of a
program whose executed instructions are only Add (word exactly 1), Multiply
(word exactly 2) and Halt (word exactly 99) with valid positional operands.
It returns the final memory and the pc of the Halt instruction, and is
undefined (none) on anything else. -/
def simpleRun : Nat → List Int → Nat → Option (List Int × Nat)
  | 0, _, _ => none
  | f + 1, mem, pc =>
    (mem.get? pc).bind fun c =>
      if c = 99 then some (mem, pc)
      else if c = 1 ∨ c = 2 then
        (mem.get? (pc + 1)).bind fun x =>
        (mem.get? (pc + 2)).bind fun y =>
        (mem.get? (pc + 3)).bind fun z =>
        (readPos mem x).bind fun a =>
        (readPos mem y).bind fun b =>
        (inI64 (if c = 1 then a + b else a * b)).bind fun r =>
        (writePos mem z r).bind fun mem2 =>
        simpleRun f mem2 (pc + 4)
      else none

lemma readPos_some {mem : List Int} {x a : Int} (h : readPos mem x = some a) :
    0 ≤ x ∧ mem.get? x.toNat = some a ∧ x.toNat < mem.length := by
  unfold readPos at h
  by_cases h0 : 0 ≤ x
  · rw [if_pos h0] at h
    exact ⟨h0, h, get?_some_lt h⟩
  · rw [if_neg h0] at h
    cases h

lemma writePos_some {mem mem2 : List Int} {z v : Int}
    (h : writePos mem z v = some mem2) :
    0 ≤ z ∧ z.toNat < mem.length ∧ mem2 = mem.set z.toNat v := by
  unfold writePos at h
  by_cases h0 : 0 ≤ z ∧ z.toNat < mem.length
  · rw [if_pos h0] at h
    exact ⟨h0.1, h0.2, (Option.some.inj h).symm⟩
  · rw [if_neg h0] at h
    cases h

lemma inI64_some {v r : Int} (h : inI64 v = some r) :
    r = v ∧ i64Min ≤ v ∧ v ≤ i64Max := by
  unfold inI64 at h
  by_cases h0 : i64Min ≤ v ∧ v ≤ i64Max
  · rw [if_pos h0] at h
    exact ⟨(Option.some.inj h).symm, h0⟩
  · rw [if_neg h0] at h
    cases h

/-- In-bounds positional reads leave the VM untouched and return the cell. -/
lemma get_value_pos_in_bounds {vm : VM} {x a : Int} (hx : 0 ≤ x)
    (hlt : x.toNat < vm.bytecode.length) (hlen : vm.bytecode.length < 2 ^ 63)
    (ha : vm.bytecode.get? x.toNat = some a) :
    get_value vm (Operand.mk x .Position) = .ok (vm, a) := by
  have haddr : intToUsize x = x.toNat := by
    unfold intToUsize
    omega
  have he : ensure_mem_availability vm.bytecode x.toNat = .ok vm.bytecode := by
    unfold ensure_mem_availability
    rw [if_neg (by omega)]
  have hg : memGet vm.bytecode x.toNat = .ok a := by
    unfold memGet
    rw [ha]
  simp only [get_value, haddr, he, hg, ok_bind]

/-- Nonnegative small write destinations resolve to their own value. -/
lemma get_absolute_address_pos {vm : VM} {z : Int} (hz : 0 ≤ z)
    (hlt : z < 2 ^ 63) :
    get_absolute_address vm (Operand.mk z .Position) = .ok z.toNat := by
  simp only [get_absolute_address]
  unfold intToUsize
  congr 1
  omega

/-- In-bounds writes just set the cell. -/
lemma set_mem_in_bounds {vm : VM} {a : Nat} {v : Int}
    (hlt : a < vm.bytecode.length) :
    set_mem vm a v = .ok { vm with bytecode := vm.bytecode.set a v } := by
  have he : ensure_mem_availability vm.bytecode a = .ok vm.bytecode := by
    unfold ensure_mem_availability
    rw [if_neg (by omega)]
  have hs : memSet vm.bytecode a v = .ok (vm.bytecode.set a v) := by
    unfold memSet
    rw [if_pos hlt]
  simp only [set_mem, he, hs, ok_bind]

lemma checkedAdd_ok {a b : Int} (h1 : i64Min ≤ a + b) (h2 : a + b ≤ i64Max) :
    checkedAdd a b = .ok (a + b) := by
  unfold checkedAdd
  rw [if_neg (by omega)]

lemma checkedMul_ok {a b : Int} (h1 : i64Min ≤ a * b) (h2 : a * b ≤ i64Max) :
    checkedMul a b = .ok (a * b) := by
  unfold checkedMul
  rw [if_neg (by omega)]

end AddMulHalt

section AddMulHaltMain

open Intcode

/-- Each step of the direct arithmetic interpretation is matched by one loop
iteration of run_till_output, ending in a Halt with the same final memory,
the pc just past the Halt word, and untouched queues and log. -/
lemma simpleRun_loopRun (f : Nat) :
    ∀ (mem mem' : List Int) (pc pcH : Nat),
      simpleRun f mem pc = some (mem', pcH) →
      mem.length < 2 ^ 63 →
      ∀ (vm : VM), vm.bytecode = mem → vm.pc = pc → vm.done = false →
      ∀ g, f ≤ g →
      ∃ vm', loopRun g vm = .ok vm' ∧ vm'.bytecode = mem' ∧
        vm'.pc = pcH + 1 ∧ vm'.done = true ∧
        vm'.outputs = vm.outputs ∧ vm'.inputs = vm.inputs := by
  induction f with
  | zero =>
    intro mem mem' pc pcH h
    exact absurd h (by simp [simpleRun])
  | succ n ih =>
    intro mem mem' pc pcH h hlen vm hb hp hd g hg
    unfold simpleRun at h
    obtain ⟨c, hc, h⟩ := Option.bind_eq_some.1 h
    by_cases h99 : c = 99
    · subst h99
      rw [if_pos rfl] at h
      have hpair := Option.some.inj h
      obtain ⟨hmem', hpcH⟩ : mem = mem' ∧ pc = pcH :=
        ⟨congrArg Prod.fst hpair, congrArg Prod.snd hpair⟩
      subst hmem'
      subst hpcH
      obtain ⟨g', rfl⟩ : ∃ g', g = g' + 1 := ⟨g - 1, by omega⟩
      have hm0 : memGet vm.bytecode vm.pc = .ok 99 := by
        simp only [memGet, hb, hp, hc]
      have hfetch : get_next_instruction vm = .ok (Instruction.mk 99 []) := by
        simp only [get_next_instruction, hm0, ok_bind]
        rfl
      have hstep : step vm = .ok (.brk { vm with pc := vm.pc + 1, done := true }) := by
        simp only [step, hfetch, ok_bind]
        rfl
      refine ⟨{ vm with pc := vm.pc + 1, done := true }, ?_, hb, by simp [hp],
        rfl, rfl, rfl⟩
      unfold loopRun
      rw [hstep]
      rfl
    · rw [if_neg h99] at h
      by_cases h12 : c = 1 ∨ c = 2
      · rw [if_pos h12] at h
        obtain ⟨x, hx, h⟩ := Option.bind_eq_some.1 h
        obtain ⟨y, hy, h⟩ := Option.bind_eq_some.1 h
        obtain ⟨z, hz, h⟩ := Option.bind_eq_some.1 h
        obtain ⟨a, hra, h⟩ := Option.bind_eq_some.1 h
        obtain ⟨b, hrb, h⟩ := Option.bind_eq_some.1 h
        obtain ⟨r, hr, h⟩ := Option.bind_eq_some.1 h
        obtain ⟨mem2, hw, hrec⟩ := Option.bind_eq_some.1 h
        obtain ⟨hx0, hxg, hxlt⟩ := readPos_some hra
        obtain ⟨hy0, hyg, hylt⟩ := readPos_some hrb
        obtain ⟨hz0, hzlt, hmem2⟩ := writePos_some hw
        obtain ⟨hrv, hlo, hhi⟩ := inI64_some hr
        obtain ⟨g', rfl⟩ : ∃ g', g = g' + 1 := ⟨g - 1, by omega⟩
        have hm0 : memGet vm.bytecode vm.pc = .ok c := by
          simp only [memGet, hb, hp, hc]
        have hm1 : memGet vm.bytecode (vm.pc + 1) = .ok x := by
          simp only [memGet, hb, hp, hx]
        have hm2 : memGet vm.bytecode (vm.pc + 2) = .ok y := by
          simp only [memGet, hb, hp, hy]
        have hm3 : memGet vm.bytecode (vm.pc + 3) = .ok z := by
          simp only [memGet, hb, hp, hz]
        have hgx : get_value vm (Operand.mk x .Position) = .ok (vm, a) :=
          get_value_pos_in_bounds hx0 (by rw [hb]; exact hxlt)
            (by rw [hb]; exact hlen) (by rw [hb]; exact hxg)
        have hgy : get_value vm (Operand.mk y .Position) = .ok (vm, b) :=
          get_value_pos_in_bounds hy0 (by rw [hb]; exact hylt)
            (by rw [hb]; exact hlen) (by rw [hb]; exact hyg)
        have habs : get_absolute_address vm (Operand.mk z .Position) = .ok z.toNat :=
          get_absolute_address_pos hz0 (by omega)
        rcases h12 with rfl | rfl
        · norm_num at hrv hlo hhi
          subst hrv
          have hsum : checkedAdd a b = .ok (a + b) := checkedAdd_ok hlo hhi
          have hset : set_mem vm z.toNat (a + b)
              = .ok { vm with bytecode := vm.bytecode.set z.toNat (a + b) } :=
            set_mem_in_bounds (by rw [hb]; exact hzlt)
          have hfetch : get_next_instruction vm = .ok (Instruction.mk 1
              [Operand.mk x .Position, Operand.mk y .Position, Operand.mk z .Position]) := by
            simp only [get_next_instruction, fetchOperand, hm0, hm1, hm2, hm3, ok_bind]
            rfl
          have hoa : Opcode.ofInt (1 : Int) = .ok .Add := rfl
          have hop0 : getOperand (Instruction.mk 1
              [Operand.mk x .Position, Operand.mk y .Position, Operand.mk z .Position]) 0
              = .ok (Operand.mk x .Position) := rfl
          have hop1 : getOperand (Instruction.mk 1
              [Operand.mk x .Position, Operand.mk y .Position, Operand.mk z .Position]) 1
              = .ok (Operand.mk y .Position) := rfl
          have hop2 : getOperand (Instruction.mk 1
              [Operand.mk x .Position, Operand.mk y .Position, Operand.mk z .Position]) 2
              = .ok (Operand.mk z .Position) := rfl
          have hstep : step vm = .ok (.cont { vm with
              bytecode := vm.bytecode.set z.toNat (a + b), pc := vm.pc + 4 }) := by
            simp only [step, hfetch, ok_bind, hoa, hop0, hop1, hop2, hgx, hgy,
              habs, hsum, hset]
          obtain ⟨vm', hL, hB, hP, hD, hO, hI⟩ := ih mem2 mem' (pc + 4) pcH hrec
            (by rw [hmem2]; simpa using hlen)
            { vm with bytecode := vm.bytecode.set z.toNat (a + b), pc := vm.pc + 4 }
            (by rw [hmem2, hb]) (by simp [hp]) hd g' (by omega)
          refine ⟨vm', ?_, hB, hP, hD, hO, hI⟩
          unfold loopRun
          rw [hstep]
          exact hL
        · norm_num at hrv hlo hhi
          subst hrv
          have hsum : checkedMul a b = .ok (a * b) := checkedMul_ok hlo hhi
          have hset : set_mem vm z.toNat (a * b)
              = .ok { vm with bytecode := vm.bytecode.set z.toNat (a * b) } :=
            set_mem_in_bounds (by rw [hb]; exact hzlt)
          have hfetch : get_next_instruction vm = .ok (Instruction.mk 2
              [Operand.mk x .Position, Operand.mk y .Position, Operand.mk z .Position]) := by
            simp only [get_next_instruction, fetchOperand, hm0, hm1, hm2, hm3, ok_bind]
            rfl
          have hoa : Opcode.ofInt (2 : Int) = .ok .Multiply := rfl
          have hop0 : getOperand (Instruction.mk 2
              [Operand.mk x .Position, Operand.mk y .Position, Operand.mk z .Position]) 0
              = .ok (Operand.mk x .Position) := rfl
          have hop1 : getOperand (Instruction.mk 2
              [Operand.mk x .Position, Operand.mk y .Position, Operand.mk z .Position]) 1
              = .ok (Operand.mk y .Position) := rfl
          have hop2 : getOperand (Instruction.mk 2
              [Operand.mk x .Position, Operand.mk y .Position, Operand.mk z .Position]) 2
              = .ok (Operand.mk z .Position) := rfl
          have hstep : step vm = .ok (.cont { vm with
              bytecode := vm.bytecode.set z.toNat (a * b), pc := vm.pc + 4 }) := by
            simp only [step, hfetch, ok_bind, hoa, hop0, hop1, hop2, hgx, hgy,
              habs, hsum, hset]
          obtain ⟨vm', hL, hB, hP, hD, hO, hI⟩ := ih mem2 mem' (pc + 4) pcH hrec
            (by rw [hmem2]; simpa using hlen)
            { vm with bytecode := vm.bytecode.set z.toNat (a * b), pc := vm.pc + 4 }
            (by rw [hmem2, hb]) (by simp [hp]) hd g' (by omega)
          refine ⟨vm', ?_, hB, hP, hD, hO, hI⟩
          unfold loopRun
          rw [hstep]
          exact hL
      · rw [if_neg h12] at h
        cases h

/-- C8: whenever the direct arithmetic interpretation of a program (only
Add, Multiply and Halt, valid positional operands) finishes in f steps, the
VM's run() terminates with fuel f + 1 (one run_till_output pass does all the
work: no output ever suspends it), the final memory equals the direct
interpretation's, the final pc sits one past the Halt word after advancing
4 per arithmetic instruction, and the output log stays empty. -/
theorem claim_C8_add_mul_halt_refines (prog : List Int) (f : Nat)
    (mem' : List Int) (pcH : Nat) (hlen : prog.length < 2 ^ 63)
    (h : simpleRun f prog 0 = some (mem', pcH)) :
    ∃ vm', run (f + 1) (VM.new prog) = .ok vm' ∧ vm'.bytecode = mem' ∧
      vm'.pc = pcH + 1 ∧ vm'.done = true ∧ vm'.outputs = [] := by
  obtain ⟨vm', hL, hB, hP, hD, hO, hI⟩ :=
    simpleRun_loopRun f prog mem' 0 pcH h hlen (VM.new prog) rfl rfl rfl
      (f + 1) (by omega)
  refine ⟨vm', ?_, hB, hP, hD, hO⟩
  have h1 : run_till_output (f + 1) (VM.new prog) = .ok vm' := by
    unfold run_till_output
    rw [if_neg (by simp [VM.new])]
    exact hL
  have h2 : run f vm' = .ok vm' := by
    cases f <;> simp [run, hD]
  unfold run
  rw [if_neg (by simp [VM.new]), h1, ok_bind, h2]

/-- Witness for C8 at the program 1,0,0,0,99: its direct interpretation ends
in memory 2,0,0,0,99 with the Halt at pc 4, and so does the VM (final pc 5,
as the repository's own test_add asserts). -/
theorem claim_C8_add_mul_halt_refines_witness :
    [(1 : Int), 0, 0, 0, 99].length < 2 ^ 63 ∧
    simpleRun 2 [1, 0, 0, 0, 99] 0 = some ([2, 0, 0, 0, 99], 4) ∧
    ∃ vm', run 3 (VM.new [1, 0, 0, 0, 99]) = .ok vm' ∧
      vm'.bytecode = [2, 0, 0, 0, 99] ∧ vm'.pc = 4 + 1 ∧ vm'.done = true ∧
      vm'.outputs = [] :=
  ⟨by norm_num, by decide,
    claim_C8_add_mul_halt_refines [1, 0, 0, 0, 99] 2 [2, 0, 0, 0, 99] 4
      (by norm_num) (by decide)⟩

end AddMulHaltMain
